import Mathlib

/-!
Verification of the `pc.Application` runtime core
(`src/framework/framework_application.js`).

The JavaScript runtime is single-threaded: all asynchronous work is
cooperative interleaving of callbacks.  Each stateful routine is embedded as
an explicit state type plus a step function; the nondeterministic completion
order of asynchronous load operations is embedded as an arbitrary list of
settlement events folded over the state with the exact handler logic of the
source.  Observable callback invocations are accumulated in log fields.
-/

namespace EngineSpec

/-! ### Preload batch model (`Application.prototype.preload`)

Embeds the `Progress` mini-object and the closures `done`, the asset
`load`/`error` handlers, the script-load handler, and the synchronous
issue phase of `preload` (framework_application.js lines 147-246). -/
/-- The `Progress` mini-object of `preload`: `length` items expected,
`count` settled so far. -/
structure Progress where
  length : Nat
  count : Nat
deriving Repr, DecidableEq

/-- Method inc of the `Progress` mini-object: `this.count++`. -/
def Progress.inc (p : Progress) : Progress :=
  { p with count := p.count + 1 }

/-- Method done of the `Progress` mini-object: `this.count === this.length`. -/
def Progress.done (p : Progress) : Bool :=
  p.count == p.length

/-- State of one `preload` batch.  `assetsP`/`scriptsP` are the two
`Progress` objects `_assets`/`_scripts`; `doneFlag` is the `_done` latch;
`preloading` is `systems.script.preloading`; `progressLog` records each
`fire("preload:progress", count()/total)` as the exact rational pair
(numerator `count()`, denominator `total`); `callbackLog` records each
invocation of the caller's completion callback.  The JS call is
`callback()` with no arguments (no error value ever passed), so an
invocation record carries only the value of `systems.script.preloading`
observed at the moment the callback runs. -/
structure PreloadState where
  assetsP : Progress
  scriptsP : Progress
  doneFlag : Bool
  preloading : Bool
  progressLog : List (Nat × Nat)
  callbackLog : List Bool
deriving Repr, DecidableEq

/-- The `total` of `preload`: `assets.length + this._scripts.length`. -/
def PreloadState.total (s : PreloadState) : Nat :=
  s.assetsP.length + s.scriptsP.length

/-- The `done` closure of `preload`:
`if (!_done && _assets.done() && _scripts.done()) { _done = true;
self.systems.script.preloading = false; callback(); }`.
The callback invocation records the `preloading` flag, which has just been
set to `false`. -/
def doneCheck (s : PreloadState) : PreloadState :=
  if !s.doneFlag && s.assetsP.done && s.scriptsP.done then
    { s with doneFlag := true, preloading := false,
             callbackLog := s.callbackLog ++ [false] }
  else s

/-- One asset settlement (the `once('load')` handler, the `once('error')`
handler, and the already-`loaded` branch of the issue loop all have the same
observable effect): `_assets.inc(); fire("preload:progress", count()/total);
if (_assets.done()) { done(); }`. -/
def assetSettled (s : PreloadState) : PreloadState :=
  let a := s.assetsP.inc
  let s1 : PreloadState :=
    { s with assetsP := a,
             progressLog := s.progressLog ++ [(a.count + s.scriptsP.count, s.total)] }
  if a.done then doneCheck s1 else s1

/-- One script settlement (the `loader.load(url, "script", ...)` callback;
a load error is only `console.error`ed): `_scripts.inc();
if (_scripts.done()) { done(); }`.  No progress event is fired here. -/
def scriptSettled (s : PreloadState) : PreloadState :=
  let c := s.scriptsP.inc
  let s1 : PreloadState := { s with scriptsP := c }
  if c.done then doneCheck s1 else s1

/-- The synchronous asset issue loop of `preload`: assets whose `loaded`
flag is `true` (cache hits) settle immediately inside the loop; unloaded
assets only get their handlers registered (no immediate state change). -/
def issueAssets : List Bool → PreloadState → PreloadState
  | [], s => s
  | loaded :: rest, s =>
      issueAssets rest (if loaded then assetSettled s else s)

/-- The synchronous part of `preload`: sets `preloading = true`, builds the
two `Progress` objects, runs the asset issue loop (or calls `done()` when
`_assets.length` is 0), then issues the script loads (or calls `done()` when
`_scripts.length` is 0).  `flags` is the `loaded` flag of each asset in the
preload list; `nScripts` is `this._scripts.length`. -/
def preloadInit (flags : List Bool) (nScripts : Nat) : PreloadState :=
  let s0 : PreloadState :=
    { assetsP := ⟨flags.length, 0⟩, scriptsP := ⟨nScripts, 0⟩,
      doneFlag := false, preloading := true,
      progressLog := [], callbackLog := [] }
  let s1 := if flags.length != 0 then issueAssets flags s0 else doneCheck s0
  if nScripts != 0 then s1 else doneCheck s1

/-- An asynchronous settlement event delivered to the batch after the issue
phase.  `assetLoad i` / `assetError i` are the `'load'` / `'error'` events of
the i-th preload asset; `scriptDone i ok` is the loader callback of the i-th
preload script (`ok = false` means the loader reported an error). -/
inductive PEvent
  | assetLoad (i : Nat)
  | assetError (i : Nat)
  | scriptDone (i : Nat) (ok : Bool)
deriving Repr, DecidableEq

/-- Dispatch of one settlement event to the handlers registered by
`preload`.  The handlers do not inspect which item settled, nor (for
scripts) the error value, beyond console logging. -/
def stepEvent (s : PreloadState) : PEvent → PreloadState
  | .assetLoad _ => assetSettled s
  | .assetError _ => assetSettled s
  | .scriptDone _ _ => scriptSettled s

/-- A whole `preload` run: the synchronous issue phase followed by an
arbitrary sequence of asynchronous settlement events. -/
def preloadRun (flags : List Bool) (nScripts : Nat) (tr : List PEvent) : PreloadState :=
  tr.foldl stepEvent (preloadInit flags nScripts)

/-- The preload-asset index an event settles, if it is an asset event. -/
def assetTarget : PEvent → Option Nat
  | .assetLoad i => some i
  | .assetError i => some i
  | .scriptDone _ _ => none

/-- The preload-script index an event settles, if it is a script event. -/
def scriptTarget : PEvent → Option Nat
  | .scriptDone i _ => some i
  | _ => none

/-- Number of asset settlement events in a trace. -/
def aevCount (tr : List PEvent) : Nat := (tr.filterMap assetTarget).length

/-- Number of script settlement events in a trace. -/
def sevCount (tr : List PEvent) : Nat := (tr.filterMap scriptTarget).length

/-- Indices of the preload assets that are not yet loaded (those for which
`preload` registers handlers and issues a load). -/
def uncachedIdx (flags : List Bool) : List Nat :=
  (List.range flags.length).filter (fun i => !(flags.getD i true))

/-- Number of already-loaded (cache hit) preload assets. -/
def cachedCount (flags : List Bool) : Nat := flags.countP (fun b => b)

/-- Each pending item settles exactly once, in an arbitrary order: the
multiset of asset-event targets is exactly the set of unloaded asset
indices, and the multiset of script-event targets is exactly the set of
script indices. -/
def validExactlyOnce (flags : List Bool) (nScripts : Nat) (tr : List PEvent) : Prop :=
  List.Perm (tr.filterMap assetTarget) (uncachedIdx flags) ∧
  List.Perm (tr.filterMap scriptTarget) (List.range nScripts)

instance (flags : List Bool) (nScripts : Nat) (tr : List PEvent) :
    Decidable (validExactlyOnce flags nScripts tr) :=
  inferInstanceAs (Decidable (_ ∧ _))

/-- Invariant of a preload batch state, relative to the batch parameters:
progress lengths match the batch, counts are within bounds, the `_done`
latch is exactly "both progress objects report done", the completion
callback has run exactly when the latch is set (recording a `false`
preloading flag), and the progress log is a non-decreasing sequence of
fractions `k / total` with one entry per settled asset. -/
structure PInv (flags : List Bool) (n : Nat) (s : PreloadState) : Prop where
  alen : s.assetsP.length = flags.length
  slen : s.scriptsP.length = n
  acount : s.assetsP.count ≤ flags.length
  scount : s.scriptsP.count ≤ n
  dflag : s.doneFlag = (s.assetsP.done && s.scriptsP.done)
  clog : s.callbackLog = if s.doneFlag then [false] else []
  pflag : s.preloading = !s.doneFlag
  pmono : List.Chain' (fun x y => x.1 ≤ y.1) s.progressLog
  pentries : ∀ p ∈ s.progressLog,
    p.2 = flags.length + n ∧ p.1 ≤ s.assetsP.count + s.scriptsP.count
  plen : s.progressLog.length = s.assetsP.count

/-- Weak invariant for the at-most-once guarantee of the `_done` latch:
the callback has run exactly as many times as the latch indicates, on any
trace (valid or not). -/
def WInv (s : PreloadState) : Prop :=
  (s.doneFlag = false → s.callbackLog = []) ∧
  (s.doneFlag = true → s.callbackLog.length = 1)

/-! ### Library loading of `configure` (`Application.prototype._parseApplicationProperties`)

Embeds the library-loading loop (framework_application.js lines 266-291):
`var count = len;` then for each library a loader callback
`count--; if (err) { callback(err); } else if (count === 0) {
this.systems.rigidbody.onLibraryLoaded(); callback(null); }`.
`configure` forwards this callback's value unchanged to its own caller
(null on the no-error path, the error otherwise). -/
/-- Outcome reported by the loader for one library (`err` of the
callback): `ok` on success, `fail e` on a transport error `e`. -/
inductive LibOutcome
  | ok
  | fail (e : String)
deriving Repr, DecidableEq

/-- State of the library-loading loop: the shared decremented `count`
variable and the values passed to each `callback(...)` invocation
(`none` is JS `null`). -/
structure LibState where
  count : Int
  callbackLog : List (Option String)
deriving Repr, DecidableEq

/-- One library settlement, in settlement order: `count--`, then
`if (err) callback(err) else if (count === 0) callback(null)`. -/
def libSettle (s : LibState) (o : LibOutcome) : LibState :=
  let s1 : LibState := { s with count := s.count - 1 }
  match o with
  | .fail e => { s1 with callbackLog := s1.callbackLog ++ [some e] }
  | .ok =>
      if s1.count == 0 then { s1 with callbackLog := s1.callbackLog ++ [none] }
      else s1

/-- The library part of `_parseApplicationProperties`: with a non-empty
library list every library settles exactly once (the loader calls each
callback once), in the arbitrary order given by `outcomes`; with an empty
list `callback(null)` runs immediately. -/
def parseAppPropsLibs (outcomes : List LibOutcome) : LibState :=
  if outcomes.length != 0 then
    outcomes.foldl libSettle ⟨(outcomes.length : Int), []⟩
  else ⟨0, [none]⟩

/-- The transport errors among the outcomes, in settlement order. -/
def errList (outcomes : List LibOutcome) : List String :=
  outcomes.filterMap (fun o => match o with | .ok => none | .fail e => some e)

/-- Whether the last library to settle loaded successfully. -/
def lastOk (outcomes : List LibOutcome) : Bool :=
  outcomes.getLast? == some LibOutcome.ok

/-! ### Frame clock (`Application.prototype.tick`, lines 485-501)

Times are rationals in milliseconds (JS numbers carry no NaN here; the
only falsy numeric value relevant to `this._time || now` is 0, which is
exactly how the model reads it). -/
/-- Model of `pc.math.clamp` (math collaborator outside src/): clamp `v` into
`[lo, hi]`. -/
def pcClamp (v lo hi : ℚ) : ℚ :=
  if v < lo then lo else if v > hi then hi else v

/-- The tick clock: `this._time` (milliseconds) and `this.timeScale`. -/
structure TickClock where
  time : ℚ
  timeScale : ℚ
deriving Repr, DecidableEq

/-- The `Application` constructor seeds `this._time = 0`. -/
def initClock (ts : ℚ) : TickClock := ⟨0, ts⟩

/-- One `tick` at host time `now` (ms): returns the new clock and the
delta passed to `this.update`:
`var dt = (now - (this._time || now)) / 1000.0; this._time = now;
dt = pc.math.clamp(dt, 0, 0.1); dt *= this.timeScale;`. -/
def tickStep (s : TickClock) (now : ℚ) : TickClock × ℚ :=
  let ref := if s.time == 0 then now else s.time
  let dt0 := (now - ref) / 1000
  let s1 : TickClock := { s with time := now }
  let dt1 := pcClamp dt0 0 (1 / 10)
  (s1, dt1 * s1.timeScale)

/-- The delta formula exactly as the specification words it: clamp the
elapsed seconds into `[0, 0.1]` first, then multiply by `timeScale`. -/
def specDelta (lastSec nowSec ts : ℚ) : ℚ :=
  pcClamp (nowSec - lastSec) 0 (1 / 10) * ts

/-! ### Canvas resize (`Application.prototype.resizeCanvas`, lines 650-693,
non-CocoonJS branch).  `bw`/`bh` are the backing buffer dimensions
(`graphicsDevice.canvas.width/height`), `w`/`h` the explicit arguments
(used only in NONE fill mode). -/
/-- The three `pc.FILLMODE_*` values. -/
inductive FillMode
  | fmNone
  | fillWindow
  | keepAspect
deriving Repr, DecidableEq

/-- The `{width, height}` object returned by `resizeCanvas`. -/
structure SizePair where
  width : ℚ
  height : ℚ
deriving Repr, DecidableEq

/-- Embeds `resizeCanvas` (non-CocoonJS): KEEP_ASPECT derives the displayed size
from the backing ratio `r = bw/bh` against the window ratio; FILL_WINDOW
takes the window size; NONE takes the provided arguments. -/
def resizeCanvas (mode : FillMode) (winW winH bw bh w h : ℚ) : SizePair :=
  match mode with
  | .keepAspect =>
      let r := bw / bh
      let winR := winW / winH
      if r > winR then { width := winW, height := winW / r }
      else { width := winH * r, height := winH }
  | .fillWindow => { width := winW, height := winH }
  | .fmNone => { width := w, height := h }

/-! ### `Application.prototype.loadFromToc` (lines 333-346), synchronous
prefix: the missing-content guard, the callback defaulting, and the first
dereferences.  JS exceptions are explicit outcomes. -/
/-- One table-of-contents entry (only the part the modeled prefix reads). -/
structure TocEntry where
  packs : List String
deriving Repr, DecidableEq

/-- The `this.content` object: a table of contents keyed by name. -/
structure AppContent where
  toc : List (String × TocEntry)
deriving Repr, DecidableEq

/-- The JS `TypeError` kinds the modeled prefix can raise: calling an
undefined value, or reading a member of an undefined value. -/
inductive JsErrKind
  | calledUndefined
  | memberOfUndefined
deriving Repr, DecidableEq

/-- Result of the synchronous prefix of `loadFromToc`: either it threw
(after having made the listed error-callback invocations), or control
reached the asynchronous part with `guid = toc.packs[0]`. -/
inductive TocOutcome
  | threw (callLog : List String) (k : JsErrKind)
  | proceeds (callLog : List String) (guid : Option String)
deriving Repr, DecidableEq

/-- Synchronous prefix of `loadFromToc(name, success, error, progress)`:
`if (!this.content) { error('No content'); }` — with no `return`, so
execution continues — then `var toc = this.content.toc[name];`, then the
`success = success || ...`-style defaulting, then
`var guid = toc.packs[0];`.  `hasErrorCb` is whether the caller passed an
`error` callback (the defaulting has not happened yet at the guard). -/
def loadFromToc (content : Option AppContent) (hasErrorCb : Bool) (name : String) :
    TocOutcome :=
  let guardResult : Option (List String) :=
    if content.isNone then
      if hasErrorCb then some ["No content"] else none
    else some []
  match guardResult with
  | none => TocOutcome.threw [] JsErrKind.calledUndefined
  | some log =>
    match content with
    | none => TocOutcome.threw log JsErrKind.memberOfUndefined
    | some c =>
      match (c.toc.find? (fun q => q.1 == name)).map (fun q => q.2) with
      | none => TocOutcome.threw log JsErrKind.memberOfUndefined
      | some entry => TocOutcome.proceeds log entry.packs.head?

/-! ### `Application.prototype.start` (lines 316-327)

`start` attaches `this.scene.root` (when a scene with a root is present)
under `this.root`, then calls `pc.ComponentSystem.initialize(this.root)`,
then `pc.ComponentSystem.postInitialize(this.root)`, then `this.tick()`.
The entity hierarchy is a finite tree of node ids. -/
/-- A node hierarchy (entity tree). -/
inductive HierTree
  | node (id : Nat) (children : List HierTree)

mutual

/-- All node ids of a tree, root first (creation order). -/
def nodesOf : HierTree → List Nat
  | .node i cs => i :: nodesOfList cs

/-- All node ids of a forest, in order. -/
def nodesOfList : List HierTree → List Nat
  | [] => []
  | t :: ts => nodesOf t ++ nodesOfList ts

end

/-- Observable actions of `start`, in call order. -/
inductive StartEv
  | attachRoot
  | initNode (i : Nat)
  | postInitNode (i : Nat)
  | tickStart
deriving Repr, DecidableEq

/-- Modelled from the spec: `pc.ComponentSystem.initialize(root)` is not
under src/ (only its call site is); per the spec it runs `initialize` over
every node of the hierarchy, depth matching creation order. -/
def initializeEvents (root : HierTree) : List StartEv :=
  (nodesOf root).map StartEv.initNode

/-- Modelled from the spec: `pc.ComponentSystem.postInitialize(root)` runs
`postInitialize` over every node of the hierarchy, in the same order. -/
def postInitializeEvents (root : HierTree) : List StartEv :=
  (nodesOf root).map StartEv.postInitNode

/-- The attach `this.root.addChild(this.scene.root)`. -/
def attachChild (w c : HierTree) : HierTree :=
  match w with
  | .node i cs => .node i (cs ++ [c])

/-- The world root after the optional scene attach. -/
def startWorld (world : HierTree) (sceneRoot : Option HierTree) : HierTree :=
  match sceneRoot with
  | some sr => attachChild world sr
  | none => world

/-- The action trace of `Application.prototype.start`. -/
def startTrace (world : HierTree) (sceneRoot : Option HierTree) : List StartEv :=
  (match sceneRoot with | some _ => [StartEv.attachRoot] | none => []) ++
    initializeEvents (startWorld world sceneRoot) ++
    postInitializeEvents (startWorld world sceneRoot) ++ [StartEv.tickStart]

def isAttachEv : StartEv → Bool
  | .attachRoot => true
  | _ => false

def isInitEv : StartEv → Bool
  | .initNode _ => true
  | _ => false

def isPostInitEv : StartEv → Bool
  | .postInitNode _ => true
  | _ => false

def isTickEv : StartEv → Bool
  | .tickStart => true
  | _ => false

/-- Every position where `p` holds comes strictly before every position
where `q` holds. -/
def allBefore {α : Type} (p q : α → Bool) (l : List α) : Prop :=
  ∀ i j (hi : i < l.length) (hj : j < l.length),
    p (l.get ⟨i, hi⟩) = true → q (l.get ⟨j, hj⟩) = true → i < j

/-! ### Fullscreen transitions (`Application.prototype.enableFullscreen`,
lines 571-594, and `disableFullscreen`, lines 602-614)

`enableFullscreen` builds two fresh closures: `s` (calls `success`, then
removes itself from `fullscreenchange`) and `e` (calls `error`, then
removes itself from `fullscreenerror`), registering each only when the
corresponding callback was provided; `disableFullscreen` registers only a
change closure.  DOM listeners are modeled with unique ids; a host
dispatch of an event fires every listener registered for it, in
registration order, each removing itself after its callback runs. -/
/-- The two observed DOM events. -/
inductive FsEvent
  | change
  | error
deriving Repr, DecidableEq

/-- One registered listener closure: its identity and the event it
listens on. -/
structure FsListener where
  id : Nat
  evt : FsEvent
deriving Repr, DecidableEq

/-- The DOM listener table, a fresh-id counter, and the log of listener
closures that have fired (by id, in firing order). -/
structure FsState where
  listeners : List FsListener
  nextId : Nat
  firedLog : List Nat
deriving Repr, DecidableEq

/-- Embeds `enableFullscreen(element, success, error)`: the fresh `s` closure is
registered on `fullscreenchange` when `success` was provided, and the
fresh `e` closure on `fullscreenerror` when `error` was provided. -/
def enableFullscreen (hasSuccess hasError : Bool) (st : FsState) : FsState :=
  let st1 :=
    if hasSuccess then
      { st with listeners := st.listeners ++ [⟨st.nextId, FsEvent.change⟩] }
    else st
  let st2 :=
    if hasError then
      { st1 with listeners := st1.listeners ++ [⟨st.nextId + 1, FsEvent.error⟩] }
    else st1
  { st2 with nextId := st.nextId + 2 }

/-- Embeds `disableFullscreen(success)`: a fresh change closure when `success`
was provided. -/
def disableFullscreen (hasSuccess : Bool) (st : FsState) : FsState :=
  let st1 :=
    if hasSuccess then
      { st with listeners := st.listeners ++ [⟨st.nextId, FsEvent.change⟩] }
    else st
  { st1 with nextId := st.nextId + 1 }

/-- Host dispatch of one `fullscreenchange`/`fullscreenerror` event:
every listener registered for `ev` fires (logged) and removes itself;
listeners for the other event remain. -/
def dispatchEvent (ev : FsEvent) (st : FsState) : FsState :=
  { st with
    listeners := st.listeners.filter (fun l => l.evt != ev),
    firedLog := st.firedLog ++
      (st.listeners.filter (fun l => l.evt == ev)).map (fun l => l.id) }

/-- An operation on the fullscreen listener state. -/
inductive FsOp
  | enable (hasSuccess hasError : Bool)
  | disable (hasSuccess : Bool)
  | dispatch (ev : FsEvent)
deriving Repr, DecidableEq

def fsStep (st : FsState) (op : FsOp) : FsState :=
  match op with
  | .enable hs he => enableFullscreen hs he st
  | .disable hs => disableFullscreen hs st
  | .dispatch ev => dispatchEvent ev st

/-- A run of operations from the initial empty listener table. -/
def fsRun (ops : List FsOp) : FsState := ops.foldl fsStep ⟨[], 0, []⟩

/-- Listener-table invariant: ids are unique, fired ids are unique, no
registered listener has already fired, and all ids are below the fresh
counter. -/
def FsInv (st : FsState) : Prop :=
  (st.listeners.map (fun l => l.id)).Nodup ∧
  st.firedLog.Nodup ∧
  (∀ l ∈ st.listeners, l.id < st.nextId ∧ l.id ∉ st.firedLog) ∧
  (∀ i ∈ st.firedLog, i < st.nextId)

/-! ### Per-tick phases (`Application.prototype.update`, lines 435-456,
`render`, lines 463-477, called in order by `tick`, lines 499-500)

`update` calls `pc.ComponentSystem.fixedUpdate(1/60)`, then
`pc.ComponentSystem.update(dt)`, then `pc.ComponentSystem.postUpdate(dt)`
(collaborator dispatches across all active systems, each one call site),
then fires the "update" event, then polls whichever input devices exist.
`render` synchronizes the hierarchy once, then for every camera of
`systems.camera.cameras` in array index order runs `frameBegin`,
`renderer.render`, `frameEnd`. -/
/-- One observable action of a tick's update/render phases (camera
actions carry the camera's array index). -/
inductive FrameEv
  | fixedUpdate (dt : ℚ)
  | varUpdate (dt : ℚ)
  | postUpdate (dt : ℚ)
  | fireUpdate (dt : ℚ)
  | controllerUpdate
  | mouseUpdate
  | keyboardUpdate
  | gamepadsUpdate
  | syncHierarchy
  | frameBegin (c : Nat)
  | renderScene (c : Nat)
  | frameEnd (c : Nat)
deriving Repr, DecidableEq

/-- Which optional input device objects the application holds. -/
structure InputDevices where
  controller : Bool
  mouse : Bool
  keyboard : Bool
  gamepads : Bool
deriving Repr, DecidableEq

/-- The call sequence of `Application.prototype.update`. -/
def updateTrace (dt : ℚ) (inp : InputDevices) : List FrameEv :=
  [FrameEv.fixedUpdate (1 / 60), FrameEv.varUpdate dt, FrameEv.postUpdate dt,
    FrameEv.fireUpdate dt] ++
  (if inp.controller then [FrameEv.controllerUpdate] else []) ++
  (if inp.mouse then [FrameEv.mouseUpdate] else []) ++
  (if inp.keyboard then [FrameEv.keyboardUpdate] else []) ++
  (if inp.gamepads then [FrameEv.gamepadsUpdate] else [])

/-- Per-camera render block: `frameBegin`, `render`, `frameEnd`. -/
def camTriple (c : Nat) : List FrameEv :=
  [FrameEv.frameBegin c, FrameEv.renderScene c, FrameEv.frameEnd c]

/-- The call sequence of `Application.prototype.render` with `nCams`
registered cameras. -/
def renderTrace (nCams : Nat) : List FrameEv :=
  FrameEv.syncHierarchy :: (List.range nCams).flatMap camTriple

/-- The call sequence of one tick after the clock computation:
`this.update(dt); this.render();`. -/
def tickTrace (dt : ℚ) (inp : InputDevices) (nCams : Nat) : List FrameEv :=
  updateTrace dt inp ++ renderTrace nCams

/-- The position the specification's fixed phase order prescribes for each
action: fixed-step, variable-step, post-update, "update" notification,
input polls (controller, mouse, keyboard, gamepads), hierarchy sync, then
the cameras in array order, each as begin/render/end. -/
def rank : FrameEv → Nat
  | .fixedUpdate _ => 0
  | .varUpdate _ => 1
  | .postUpdate _ => 2
  | .fireUpdate _ => 3
  | .controllerUpdate => 4
  | .mouseUpdate => 5
  | .keyboardUpdate => 6
  | .gamepadsUpdate => 7
  | .syncHierarchy => 8
  | .frameBegin c => 9 + 3 * c
  | .renderScene c => 10 + 3 * c
  | .frameEnd c => 11 + 3 * c

/-- A list segment whose ranks are strictly increasing and lie within
`[lo, hi]`. -/
def RankedSeg (l : List FrameEv) (lo hi : Nat) : Prop :=
  List.Chain' (fun a b => rank a < rank b) l ∧
    ∀ e ∈ l, lo ≤ rank e ∧ rank e ≤ hi

/-! ### Invariants and theorems -/

lemma doneCheck_noop {flags : List Bool} {n : Nat} {s : PreloadState}
    (h : PInv flags n s) : doneCheck s = s := by
  unfold doneCheck
  rw [h.dflag]
  cases hA : s.assetsP.done <;> cases hS : s.scriptsP.done <;> simp

lemma assetSettled_pinv {flags : List Bool} {n : Nat} {s : PreloadState}
    (h : PInv flags n s) (hlt : s.assetsP.count < flags.length) :
    PInv flags n (assetSettled s) ∧
    (assetSettled s).assetsP.count = s.assetsP.count + 1 ∧
    (assetSettled s).scriptsP.count = s.scriptsP.count := by
  obtain ⟨⟨al, ac⟩, ⟨sl, sc⟩, d, pr, plog, clog⟩ := s
  obtain ⟨alen, slen, acount, scount, dflag, clg, pflag, pmono, pentries, plen⟩ := h
  dsimp only [Progress.done, Progress.inc, PreloadState.total] at alen slen acount scount dflag clg pflag pentries plen hlt ⊢
  have hne : (ac == al) = false := beq_eq_false_iff_ne.2 (by omega)
  rw [hne, Bool.false_and] at dflag
  subst dflag
  simp only [Bool.false_eq_true, if_false] at clg
  subst clg
  simp only [Bool.not_false] at pflag
  subst pflag
  -- the new progress entry keeps the log monotone and in range
  have hmono1 : List.Chain' (fun x y => x.1 ≤ y.1) (plog ++ [(ac + 1 + sc, al + sl)]) := by
    rw [List.chain'_append]
    refine ⟨pmono, List.chain'_singleton _, ?_⟩
    intro x hx y hy
    have hxm : x ∈ plog := List.mem_of_mem_getLast? hx
    have hx1 := (pentries x hxm).2
    have hy1 : (ac + 1 + sc, al + sl) = y := by simpa using hy
    rw [← hy1]
    dsimp only
    omega
  have hent1 : ∀ p ∈ plog ++ [(ac + 1 + sc, al + sl)],
      p.2 = flags.length + n ∧ p.1 ≤ ac + 1 + sc := by
    intro p hp
    rcases List.mem_append.1 hp with hp | hp
    · have := pentries p hp
      exact ⟨this.1, by omega⟩
    · have hp1 : p = (ac + 1 + sc, al + sl) := by simpa using hp
      subst hp1
      refine ⟨?_, le_refl _⟩
      dsimp only
      rw [alen, slen]
  have hlen1 : (plog ++ [(ac + 1 + sc, al + sl)]).length = ac + 1 := by
    simp [plen]
  unfold assetSettled doneCheck
  dsimp only [Progress.done, Progress.inc, PreloadState.total]
  by_cases h1 : ac + 1 = al
  · have hb1 : (ac + 1 == al) = true := beq_iff_eq.2 h1
    rw [hb1]
    rw [if_pos rfl]
    by_cases h2 : sc = sl
    · have hb2 : (sc == sl) = true := beq_iff_eq.2 h2
      rw [hb2]
      simp only [Bool.not_false, Bool.true_and]
      rw [if_true]
      refine ⟨⟨alen, slen, by dsimp only; omega, scount, ?_, rfl, rfl, hmono1, hent1, hlen1⟩,
        rfl, rfl⟩
      dsimp only [Progress.done]
      rw [hb1, hb2]
      rfl
    · have hb2 : (sc == sl) = false := beq_eq_false_iff_ne.2 h2
      rw [hb2]
      simp only [Bool.not_false, Bool.true_and]
      rw [if_neg Bool.false_ne_true]
      refine ⟨⟨alen, slen, by dsimp only; omega, scount, ?_, rfl, rfl, hmono1, hent1, hlen1⟩,
        rfl, rfl⟩
      dsimp only [Progress.done]
      rw [hb1, hb2]
      rfl
  · have hb1 : (ac + 1 == al) = false := beq_eq_false_iff_ne.2 h1
    rw [hb1]
    rw [if_neg Bool.false_ne_true]
    refine ⟨⟨alen, slen, by dsimp only; omega, scount, ?_, rfl, rfl, hmono1, hent1, hlen1⟩,
      rfl, rfl⟩
    dsimp only [Progress.done]
    rw [hb1]
    rfl

lemma scriptSettled_pinv {flags : List Bool} {n : Nat} {s : PreloadState}
    (h : PInv flags n s) (hlt : s.scriptsP.count < n) :
    PInv flags n (scriptSettled s) ∧
    (scriptSettled s).assetsP.count = s.assetsP.count ∧
    (scriptSettled s).scriptsP.count = s.scriptsP.count + 1 := by
  obtain ⟨⟨al, ac⟩, ⟨sl, sc⟩, d, pr, plog, clog⟩ := s
  obtain ⟨alen, slen, acount, scount, dflag, clg, pflag, pmono, pentries, plen⟩ := h
  dsimp only [Progress.done, Progress.inc, PreloadState.total] at alen slen acount scount dflag clg pflag pmono pentries plen hlt ⊢
  have hne : (sc == sl) = false := beq_eq_false_iff_ne.2 (by omega)
  rw [hne, Bool.and_false] at dflag
  subst dflag
  simp only [Bool.false_eq_true, if_false] at clg
  subst clg
  simp only [Bool.not_false] at pflag
  subst pflag
  have hent1 : ∀ p ∈ plog, p.2 = flags.length + n ∧ p.1 ≤ ac + (sc + 1) := by
    intro p hp
    have := pentries p hp
    exact ⟨this.1, by omega⟩
  unfold scriptSettled doneCheck
  dsimp only [Progress.done, Progress.inc, PreloadState.total]
  by_cases h1 : sc + 1 = sl
  · have hb1 : (sc + 1 == sl) = true := beq_iff_eq.2 h1
    rw [hb1]
    rw [if_pos rfl]
    by_cases h2 : ac = al
    · have hb2 : (ac == al) = true := beq_iff_eq.2 h2
      rw [hb2]
      simp only [Bool.not_false, Bool.true_and]
      rw [if_true]
      refine ⟨⟨alen, slen, acount, by dsimp only; omega, ?_, rfl, rfl, pmono, hent1, plen⟩,
        rfl, rfl⟩
      dsimp only [Progress.done]
      rw [hb1, hb2]
      rfl
    · have hb2 : (ac == al) = false := beq_eq_false_iff_ne.2 h2
      rw [hb2]
      simp only [Bool.not_false, Bool.true_and, Bool.false_and]
      rw [if_neg Bool.false_ne_true]
      refine ⟨⟨alen, slen, acount, by dsimp only; omega, ?_, rfl, rfl, pmono, hent1, plen⟩,
        rfl, rfl⟩
      dsimp only [Progress.done]
      rw [hb1, hb2]
      rfl
  · have hb1 : (sc + 1 == sl) = false := beq_eq_false_iff_ne.2 h1
    rw [hb1]
    rw [if_neg Bool.false_ne_true]
    refine ⟨⟨alen, slen, acount, by dsimp only; omega, ?_, rfl, rfl, pmono, hent1, plen⟩,
      rfl, rfl⟩
    dsimp only [Progress.done]
    rw [hb1, Bool.and_false]

lemma issueAssets_pinv {flags : List Bool} {n : Nat} :
    ∀ (l : List Bool) (s : PreloadState), PInv flags n s →
      s.assetsP.count + l.countP (fun b => b) ≤ flags.length →
      PInv flags n (issueAssets l s) ∧
      (issueAssets l s).assetsP.count = s.assetsP.count + l.countP (fun b => b) ∧
      (issueAssets l s).scriptsP.count = s.scriptsP.count := by
  intro l
  induction l with
  | nil =>
    intro s h _
    exact ⟨h, by simp [issueAssets], by simp [issueAssets]⟩
  | cons b rest ih =>
    intro s h hb
    rw [List.countP_cons] at hb
    simp only [issueAssets, List.countP_cons]
    cases b with
    | true =>
      simp only [if_true] at hb ⊢
      have hlt : s.assetsP.count < flags.length := by omega
      obtain ⟨h1, e1, e2⟩ := assetSettled_pinv h hlt
      obtain ⟨h2, f1, f2⟩ := ih (assetSettled s) h1 (by omega)
      refine ⟨h2, by omega, by rw [f2, e2]⟩
    | false =>
      simp only [Bool.false_eq_true, if_false] at hb ⊢
      obtain ⟨h2, f1, f2⟩ := ih s h (by omega)
      exact ⟨h2, by omega, f2⟩

lemma preloadInit_pinv (flags : List Bool) (n : Nat) :
    PInv flags n (preloadInit flags n) ∧
    (preloadInit flags n).assetsP.count = cachedCount flags ∧
    (preloadInit flags n).scriptsP.count = 0 := by
  match flags, n with
  | [], 0 =>
    exact ⟨⟨rfl, rfl, Nat.le_refl 0, Nat.le_refl 0, rfl, rfl, rfl, List.chain'_nil,
      (fun p hp => nomatch hp), rfl⟩, rfl, rfl⟩
  | [], (m + 1) =>
    exact ⟨⟨rfl, rfl, Nat.zero_le _, Nat.zero_le _, rfl, rfl, rfl, List.chain'_nil,
      (fun p hp => nomatch hp), rfl⟩, rfl, rfl⟩
  | (b :: rest), n =>
    have h0 : PInv (b :: rest) n
        ⟨⟨(b :: rest).length, 0⟩, ⟨n, 0⟩, false, true, [], []⟩ :=
      ⟨rfl, rfl, Nat.zero_le _, Nat.zero_le _, rfl, rfl, rfl, List.chain'_nil,
        (fun p hp => nomatch hp), rfl⟩
    have hbudget : (0 : Nat) + (b :: rest).countP (fun x => x) ≤ (b :: rest).length := by
      have : (b :: rest).countP (fun x => x) ≤ (b :: rest).length :=
        List.countP_le_length _
      omega
    obtain ⟨h1, e1, e2⟩ := issueAssets_pinv (b :: rest) _ h0 hbudget
    cases n with
    | zero =>
      have hred : preloadInit (b :: rest) 0 =
          doneCheck (issueAssets (b :: rest)
            ⟨⟨(b :: rest).length, 0⟩, ⟨0, 0⟩, false, true, [], []⟩) := rfl
      rw [hred, doneCheck_noop h1]
      refine ⟨h1, ?_, e2⟩
      rw [e1]
      simp [cachedCount]
    | succ m =>
      have hred : preloadInit (b :: rest) (m + 1) =
          issueAssets (b :: rest)
            ⟨⟨(b :: rest).length, 0⟩, ⟨m + 1, 0⟩, false, true, [], []⟩ := rfl
      rw [hred]
      refine ⟨h1, ?_, e2⟩
      rw [e1]
      simp [cachedCount]

lemma preloadSteps_pinv {flags : List Bool} {n : Nat} :
    ∀ (tr : List PEvent) (s : PreloadState), PInv flags n s →
      s.assetsP.count + aevCount tr ≤ flags.length →
      s.scriptsP.count + sevCount tr ≤ n →
      PInv flags n (tr.foldl stepEvent s) ∧
      (tr.foldl stepEvent s).assetsP.count = s.assetsP.count + aevCount tr ∧
      (tr.foldl stepEvent s).scriptsP.count = s.scriptsP.count + sevCount tr := by
  intro tr
  induction tr with
  | nil =>
    intro s h _ _
    exact ⟨h, by simp [aevCount], by simp [sevCount]⟩
  | cons e rest ih =>
    intro s h ha hs
    cases e with
    | assetLoad i =>
      have hae : aevCount (PEvent.assetLoad i :: rest) = aevCount rest + 1 := by
        simp [aevCount, List.filterMap_cons, assetTarget]
      have hse : sevCount (PEvent.assetLoad i :: rest) = sevCount rest := by
        simp [sevCount, List.filterMap_cons, scriptTarget]
      rw [hae] at ha
      rw [hse] at hs
      have hlt : s.assetsP.count < flags.length := by omega
      obtain ⟨h1, e1, e2⟩ := assetSettled_pinv h hlt
      obtain ⟨h2, f1, f2⟩ := ih (assetSettled s) h1 (by omega) (by omega)
      have hfold : List.foldl stepEvent s (PEvent.assetLoad i :: rest)
          = List.foldl stepEvent (assetSettled s) rest := rfl
      rw [hfold, hae, hse]
      exact ⟨h2, by omega, by omega⟩
    | assetError i =>
      have hae : aevCount (PEvent.assetError i :: rest) = aevCount rest + 1 := by
        simp [aevCount, List.filterMap_cons, assetTarget]
      have hse : sevCount (PEvent.assetError i :: rest) = sevCount rest := by
        simp [sevCount, List.filterMap_cons, scriptTarget]
      rw [hae] at ha
      rw [hse] at hs
      have hlt : s.assetsP.count < flags.length := by omega
      obtain ⟨h1, e1, e2⟩ := assetSettled_pinv h hlt
      obtain ⟨h2, f1, f2⟩ := ih (assetSettled s) h1 (by omega) (by omega)
      have hfold : List.foldl stepEvent s (PEvent.assetError i :: rest)
          = List.foldl stepEvent (assetSettled s) rest := rfl
      rw [hfold, hae, hse]
      exact ⟨h2, by omega, by omega⟩
    | scriptDone i ok =>
      have hae : aevCount (PEvent.scriptDone i ok :: rest) = aevCount rest := by
        simp [aevCount, List.filterMap_cons, assetTarget]
      have hse : sevCount (PEvent.scriptDone i ok :: rest) = sevCount rest + 1 := by
        simp [sevCount, List.filterMap_cons, scriptTarget]
      rw [hae] at ha
      rw [hse] at hs
      have hlt : s.scriptsP.count < n := by omega
      obtain ⟨h1, e1, e2⟩ := scriptSettled_pinv h hlt
      obtain ⟨h2, f1, f2⟩ := ih (scriptSettled s) h1 (by omega) (by omega)
      have hfold : List.foldl stepEvent s (PEvent.scriptDone i ok :: rest)
          = List.foldl stepEvent (scriptSettled s) rest := rfl
      rw [hfold, hae, hse]
      exact ⟨h2, by omega, by omega⟩

lemma doneCheck_winv {s : PreloadState} (h : WInv s) : WInv (doneCheck s) := by
  obtain ⟨⟨al, ac⟩, ⟨sl, sc⟩, d, pr, plog, clog⟩ := s
  obtain ⟨h0, h1⟩ := h
  dsimp only at h0 h1
  unfold doneCheck
  dsimp only [Progress.done]
  cases d with
  | true =>
    simp only [Bool.not_true, Bool.false_and]
    rw [if_neg Bool.false_ne_true]
    exact ⟨h0, h1⟩
  | false =>
    simp only [Bool.not_false, Bool.true_and]
    cases hab : ((ac == al) && (sc == sl)) with
    | true =>
      rw [if_pos rfl]
      refine ⟨(fun hc => nomatch hc), fun _ => ?_⟩
      rw [h0 rfl]
      rfl
    | false =>
      rw [if_neg Bool.false_ne_true]
      exact ⟨h0, h1⟩

lemma assetSettled_winv {s : PreloadState} (h : WInv s) : WInv (assetSettled s) := by
  unfold assetSettled
  dsimp only
  cases hd : (s.assetsP.inc).done with
  | true =>
    rw [if_pos rfl]
    exact doneCheck_winv h
  | false =>
    rw [if_neg Bool.false_ne_true]
    exact h

lemma scriptSettled_winv {s : PreloadState} (h : WInv s) : WInv (scriptSettled s) := by
  unfold scriptSettled
  dsimp only
  cases hd : (s.scriptsP.inc).done with
  | true =>
    rw [if_pos rfl]
    exact doneCheck_winv h
  | false =>
    rw [if_neg Bool.false_ne_true]
    exact h

lemma stepEvent_winv {s : PreloadState} (h : WInv s) (e : PEvent) : WInv (stepEvent s e) := by
  cases e with
  | assetLoad i => exact assetSettled_winv h
  | assetError i => exact assetSettled_winv h
  | scriptDone i ok => exact scriptSettled_winv h

lemma foldl_winv : ∀ (tr : List PEvent) (s : PreloadState), WInv s →
    WInv (tr.foldl stepEvent s) := by
  intro tr
  induction tr with
  | nil => intro s h; exact h
  | cons e rest ih =>
    intro s h
    exact ih (stepEvent s e) (stepEvent_winv h e)

lemma issueAssets_winv : ∀ (l : List Bool) (s : PreloadState), WInv s →
    WInv (issueAssets l s) := by
  intro l
  induction l with
  | nil => intro s h; exact h
  | cons b rest ih =>
    intro s h
    cases b with
    | true => exact ih (assetSettled s) (assetSettled_winv h)
    | false => exact ih s h

lemma preloadInit_winv (flags : List Bool) (n : Nat) : WInv (preloadInit flags n) := by
  have h0 : WInv ⟨⟨flags.length, 0⟩, ⟨n, 0⟩, false, true, [], []⟩ :=
    ⟨fun _ => rfl, fun hc => nomatch hc⟩
  unfold preloadInit
  dsimp only
  cases hf : (flags.length != 0) with
  | true =>
    rw [if_pos rfl]
    cases hn : (n != 0) with
    | true =>
      rw [if_pos rfl]
      exact issueAssets_winv flags _ h0
    | false =>
      rw [if_neg Bool.false_ne_true]
      exact doneCheck_winv (issueAssets_winv flags _ h0)
  | false =>
    rw [if_neg Bool.false_ne_true]
    cases hn : (n != 0) with
    | true =>
      rw [if_pos rfl]
      exact doneCheck_winv h0
    | false =>
      rw [if_neg Bool.false_ne_true]
      exact doneCheck_winv (doneCheck_winv h0)

lemma preloadRun_callback_le_one (flags : List Bool) (n : Nat) (tr : List PEvent) :
    (preloadRun flags n tr).callbackLog.length ≤ 1 := by
  obtain ⟨w0, w1⟩ := foldl_winv tr _ (preloadInit_winv flags n)
  unfold preloadRun
  cases hd : (tr.foldl stepEvent (preloadInit flags n)).doneFlag with
  | true => rw [w1 hd]
  | false => rw [w0 hd]; exact Nat.zero_le 1

lemma uncachedIdx_cons (b : Bool) (fl : List Bool) :
    uncachedIdx (b :: fl) =
      (if b then [] else [0]) ++ (uncachedIdx fl).map Nat.succ := by
  unfold uncachedIdx
  rw [List.length_cons, List.range_succ_eq_map, List.filter_cons, List.filter_map]
  have hfun : ((fun i => !((b :: fl).getD i true)) ∘ Nat.succ)
      = (fun i => !(fl.getD i true)) := by
    funext i
    simp [Function.comp, List.getD_cons_succ]
  rw [hfun]
  cases b with
  | true => simp
  | false => simp

lemma cached_add_uncached (flags : List Bool) :
    cachedCount flags + (uncachedIdx flags).length = flags.length := by
  induction flags with
  | nil => rfl
  | cons b fl ih =>
    have hc : cachedCount (b :: fl) = (if b then 1 else 0) + cachedCount fl := by
      unfold cachedCount
      rw [List.countP_cons]
      cases b <;> simp [Nat.add_comm]
    rw [uncachedIdx_cons, hc, List.length_append, List.length_map, List.length_cons]
    cases b with
    | true => simp; omega
    | false => simp; omega

lemma valid_counts {flags : List Bool} {n : Nat} {tr : List PEvent}
    (hv : validExactlyOnce flags n tr) :
    aevCount tr = (uncachedIdx flags).length ∧ sevCount tr = n := by
  refine ⟨hv.1.length_eq, ?_⟩
  have := hv.2.length_eq
  simpa using this

lemma aevCount_append (p suf : List PEvent) :
    aevCount (p ++ suf) = aevCount p + aevCount suf := by
  unfold aevCount
  rw [List.filterMap_append, List.length_append]

lemma sevCount_append (p suf : List PEvent) :
    sevCount (p ++ suf) = sevCount p + sevCount suf := by
  unfold sevCount
  rw [List.filterMap_append, List.length_append]

lemma preloadRun_pinv {flags : List Bool} {n : Nat} {tr : List PEvent}
    (ha : cachedCount flags + aevCount tr ≤ flags.length)
    (hs : sevCount tr ≤ n) :
    PInv flags n (preloadRun flags n tr) ∧
    (preloadRun flags n tr).assetsP.count = cachedCount flags + aevCount tr ∧
    (preloadRun flags n tr).scriptsP.count = sevCount tr := by
  obtain ⟨hI, i1, i2⟩ := preloadInit_pinv flags n
  obtain ⟨hF, g1, g2⟩ := preloadSteps_pinv tr (preloadInit flags n) hI (by omega) (by omega)
  refine ⟨hF, ?_, ?_⟩
  · unfold preloadRun
    omega
  · unfold preloadRun
    omega

lemma preloadRun_doneFlag_eq {flags : List Bool} {n : Nat} {tr : List PEvent}
    (ha : cachedCount flags + aevCount tr ≤ flags.length)
    (hs : sevCount tr ≤ n) :
    (preloadRun flags n tr).doneFlag =
      decide (cachedCount flags + aevCount tr = flags.length ∧ sevCount tr = n) := by
  obtain ⟨hF, g1, g2⟩ := preloadRun_pinv ha hs
  rw [hF.dflag]
  unfold Progress.done
  by_cases hc : cachedCount flags + aevCount tr = flags.length ∧ sevCount tr = n
  · have b1 : ((preloadRun flags n tr).assetsP.count
        == (preloadRun flags n tr).assetsP.length) = true := by
      refine beq_iff_eq.2 ?_
      rw [hF.alen]
      omega
    have b2 : ((preloadRun flags n tr).scriptsP.count
        == (preloadRun flags n tr).scriptsP.length) = true := by
      refine beq_iff_eq.2 ?_
      rw [hF.slen]
      omega
    rw [b1, b2, decide_eq_true hc]
    rfl
  · rw [decide_eq_false hc]
    rcases not_and_or.1 hc with h1 | h2
    · have b1 : ((preloadRun flags n tr).assetsP.count
          == (preloadRun flags n tr).assetsP.length) = false := by
        refine beq_eq_false_iff_ne.2 ?_
        rw [hF.alen]
        omega
      rw [b1, Bool.false_and]
    · have b2 : ((preloadRun flags n tr).scriptsP.count
          == (preloadRun flags n tr).scriptsP.length) = false := by
        refine beq_eq_false_iff_ne.2 ?_
        rw [hF.slen]
        omega
      rw [b2, Bool.and_false]

lemma preloadRun_callback_char {flags : List Bool} {n : Nat} {tr : List PEvent}
    (ha : cachedCount flags + aevCount tr ≤ flags.length)
    (hs : sevCount tr ≤ n) :
    (preloadRun flags n tr).callbackLog =
      (if cachedCount flags + aevCount tr = flags.length ∧ sevCount tr = n
       then [false] else []) := by
  obtain ⟨hF, g1, g2⟩ := preloadRun_pinv ha hs
  rw [hF.clog, preloadRun_doneFlag_eq ha hs]
  by_cases hc : cachedCount flags + aevCount tr = flags.length ∧ sevCount tr = n
  · rw [if_pos hc, decide_eq_true hc, if_pos rfl]
  · rw [if_neg hc, decide_eq_false hc, if_neg Bool.false_ne_true]

lemma preloadRun_settled {flags : List Bool} {n : Nat} {tr : List PEvent}
    (ha : cachedCount flags + aevCount tr = flags.length)
    (hs : sevCount tr = n) :
    (preloadRun flags n tr).callbackLog = [false] ∧
    (preloadRun flags n tr).preloading = false ∧
    (preloadRun flags n tr).assetsP.count = flags.length ∧
    (preloadRun flags n tr).scriptsP.count = n := by
  obtain ⟨hF, g1, g2⟩ := preloadRun_pinv (le_of_eq ha) (le_of_eq hs)
  have hd : (preloadRun flags n tr).doneFlag = true := by
    rw [preloadRun_doneFlag_eq (le_of_eq ha) (le_of_eq hs), decide_eq_true ⟨ha, hs⟩]
  refine ⟨?_, ?_, by omega, by omega⟩
  · rw [hF.clog, hd, if_pos rfl]
  · rw [hF.pflag, hd]
    rfl

lemma assetSettled_progressLog (s : PreloadState) :
    (assetSettled s).progressLog =
      s.progressLog ++ [(s.assetsP.inc.count + s.scriptsP.count, s.total)] := by
  obtain ⟨⟨al, ac⟩, ⟨sl, sc⟩, d, pr, plog, clog⟩ := s
  unfold assetSettled doneCheck
  dsimp only [Progress.inc, Progress.done, PreloadState.total]
  by_cases h1 : ((ac + 1 == al) = true)
  · rw [if_pos h1]
    by_cases h2 : ((!d && (ac + 1 == al) && (sc == sl)) = true)
    · rw [if_pos h2]
    · rw [if_neg h2]
  · rw [if_neg h1]

/-- C1 (corrected): for a preload batch whose items each settle exactly
once, in any completion order (cache hits included), the completion
callback is invoked exactly once, exactly at the point where the last item
settles; for an empty batch it is invoked during the synchronous phase.
On arbitrary traces (duplicate settlement events included) it is invoked
at most once. -/
theorem preload_batch_completion (flags : List Bool) (n : Nat) (tr : List PEvent)
    (hv : validExactlyOnce flags n tr) :
    (preloadRun flags n tr).callbackLog = [false] ∧
    (∀ p suf, tr = p ++ suf →
      (preloadRun flags n p).callbackLog =
        (if cachedCount flags + aevCount p = flags.length ∧ sevCount p = n
         then [false] else [])) ∧
    (∀ tr2 : List PEvent, (preloadRun flags n tr2).callbackLog.length ≤ 1) ∧
    (preloadRun [] 0 []).callbackLog = [false] := by
  obtain ⟨hva, hvs⟩ := valid_counts hv
  have hcu := cached_add_uncached flags
  refine ⟨?_, ?_, preloadRun_callback_le_one flags n, rfl⟩
  · exact (preloadRun_settled (by omega) (by omega)).1
  · intro p suf heq
    have hsplit1 : aevCount tr = aevCount p + aevCount suf := by rw [heq, aevCount_append]
    have hsplit2 : sevCount tr = sevCount p + sevCount suf := by rw [heq, sevCount_append]
    exact preloadRun_callback_char (by omega) (by omega)

/-- C1 witness: a 2-asset (one cached) plus 1-script batch, settled in an
arbitrary order, invokes the completion callback exactly once. -/
theorem preload_batch_completion_witness :
    validExactlyOnce [true, false] 1 [PEvent.assetLoad 1, PEvent.scriptDone 0 true] ∧
    (preloadRun [true, false] 1
      [PEvent.assetLoad 1, PEvent.scriptDone 0 true]).callbackLog = [false] :=
  ⟨by decide, (preload_batch_completion [true, false] 1
      [PEvent.assetLoad 1, PEvent.scriptDone 0 true] (by decide)).1⟩

/-- C1 counterexample: with two pending assets and no scripts, asset 0
double-settling (its `'load'` and `'error'` handlers each firing once, as
the `once` registrations permit) drives the settled count to the batch
length, so the completion callback fires even though asset 1 never
settled: the callback is not invoked "only after all N items have
settled". -/
theorem preload_duplicate_settlement_counterexample :
    (preloadRun [false, false] 0
      [PEvent.assetLoad 0, PEvent.assetError 0]).callbackLog = [false] ∧
    ([PEvent.assetLoad 0, PEvent.assetError 0].filterMap assetTarget).count 1 = 0 :=
  ⟨rfl, rfl⟩

/-- C7: an item failing to load (an `'error'` settlement) does not abort
the batch: the batch still completes, the completion callback is invoked
(once, with no error value — the JS call is `callback()`), and
`systems.script.preloading` is already `false` when it runs (the recorded
flag value is `false`). -/
theorem preload_item_failure_tolerated (flags : List Bool) (n : Nat) (tr : List PEvent)
    (i : Nat) (hv : validExactlyOnce flags n tr) (_hf : PEvent.assetError i ∈ tr) :
    (preloadRun flags n tr).callbackLog = [false] ∧
    (preloadRun flags n tr).preloading = false ∧
    (preloadRun flags n tr).assetsP.count = flags.length ∧
    (preloadRun flags n tr).scriptsP.count = n := by
  obtain ⟨hva, hvs⟩ := valid_counts hv
  have hcu := cached_add_uncached flags
  exact preloadRun_settled (by omega) (by omega)

/-- C7 witness: a single pending asset whose load fails still completes
the batch with the preloading flag off. -/
theorem preload_item_failure_tolerated_witness :
    validExactlyOnce [false] 0 [PEvent.assetError 0] ∧
    PEvent.assetError 0 ∈ [PEvent.assetError 0] ∧
    (preloadRun [false] 0 [PEvent.assetError 0]).callbackLog = [false] ∧
    (preloadRun [false] 0 [PEvent.assetError 0]).preloading = false :=
  ⟨by decide, by decide,
    (preload_item_failure_tolerated [false] 0 [PEvent.assetError 0] 0 (by decide)
      (by decide)).1,
    (preload_item_failure_tolerated [false] 0 [PEvent.assetError 0] 0 (by decide)
      (by decide)).2.1⟩

/-- C3 (corrected): progress notifications fire only on asset settlements
(script settlements fire none); each fired fraction is
`settledSoFar / total` with the denominator fixed at the batch total, the
numerators are monotonically non-decreasing and never exceed the
denominator, exactly one notification fires per asset, and the fraction
1.0 is reported at batch settlement exactly when the final settling item
is an asset. -/
theorem preload_progress_per_asset (flags : List Bool) (n : Nat) (tr : List PEvent)
    (hv : validExactlyOnce flags n tr) :
    List.Chain' (fun x y => x.1 ≤ y.1) (preloadRun flags n tr).progressLog ∧
    (∀ q ∈ (preloadRun flags n tr).progressLog, q.2 = flags.length + n ∧ q.1 ≤ q.2) ∧
    (preloadRun flags n tr).progressLog.length = flags.length ∧
    (∀ p e, tr = p ++ [e] → (assetTarget e).isSome = true →
      (preloadRun flags n tr).progressLog.getLast? =
        some (flags.length + n, flags.length + n)) := by
  obtain ⟨hva, hvs⟩ := valid_counts hv
  have hcu := cached_add_uncached flags
  have hrun : PInv flags n (preloadRun flags n tr) ∧
      (preloadRun flags n tr).assetsP.count = cachedCount flags + aevCount tr ∧
      (preloadRun flags n tr).scriptsP.count = sevCount tr :=
    preloadRun_pinv (by omega) (by omega)
  obtain ⟨hF, g1, g2⟩ := hrun
  refine ⟨hF.pmono, ?_, ?_, ?_⟩
  · intro q hq
    obtain ⟨e1, e2⟩ := hF.pentries q hq
    refine ⟨e1, ?_⟩
    rw [e1]
    omega
  · rw [hF.plen]
    omega
  · intro p e heq hasset
    subst heq
    have hsplit1 : aevCount (p ++ [e]) = aevCount p + aevCount [e] := aevCount_append p [e]
    have hsplit2 : sevCount (p ++ [e]) = sevCount p + sevCount [e] := sevCount_append p [e]
    have hrunp : PInv flags n (preloadRun flags n p) ∧
        (preloadRun flags n p).assetsP.count = cachedCount flags + aevCount p ∧
        (preloadRun flags n p).scriptsP.count = sevCount p :=
      preloadRun_pinv (by omega) (by omega)
    obtain ⟨hP, p1, p2⟩ := hrunp
    have hstep : preloadRun flags n (p ++ [e]) = stepEvent (preloadRun flags n p) e := by
      unfold preloadRun
      rw [List.foldl_append]
      rfl
    cases e with
    | assetLoad i =>
      have hone : aevCount [PEvent.assetLoad i] = 1 := rfl
      have hzero : sevCount [PEvent.assetLoad i] = 0 := rfl
      have hstep2 : stepEvent (preloadRun flags n p) (PEvent.assetLoad i)
          = assetSettled (preloadRun flags n p) := rfl
      rw [hstep, hstep2, assetSettled_progressLog, List.getLast?_concat]
      have hi : (preloadRun flags n p).assetsP.inc.count
          = (preloadRun flags n p).assetsP.count + 1 := rfl
      have ht : (preloadRun flags n p).total
          = (preloadRun flags n p).assetsP.length + (preloadRun flags n p).scriptsP.length := rfl
      rw [Option.some.injEq, Prod.mk.injEq]
      constructor
      · omega
      · rw [ht, hP.alen, hP.slen]
    | assetError i =>
      have hone : aevCount [PEvent.assetError i] = 1 := rfl
      have hzero : sevCount [PEvent.assetError i] = 0 := rfl
      have hstep2 : stepEvent (preloadRun flags n p) (PEvent.assetError i)
          = assetSettled (preloadRun flags n p) := rfl
      rw [hstep, hstep2, assetSettled_progressLog, List.getLast?_concat]
      have hi : (preloadRun flags n p).assetsP.inc.count
          = (preloadRun flags n p).assetsP.count + 1 := rfl
      have ht : (preloadRun flags n p).total
          = (preloadRun flags n p).assetsP.length + (preloadRun flags n p).scriptsP.length := rfl
      rw [Option.some.injEq, Prod.mk.injEq]
      constructor
      · omega
      · rw [ht, hP.alen, hP.slen]
    | scriptDone i ok =>
      exact absurd hasset (by simp [assetTarget])

/-- C3 witness: a batch of one pending asset and one script; the asset
settles first, then the script. -/
theorem preload_progress_per_asset_witness :
    validExactlyOnce [false] 1 [PEvent.assetLoad 0, PEvent.scriptDone 0 true] ∧
    (preloadRun [false] 1 [PEvent.assetLoad 0, PEvent.scriptDone 0 true]).progressLog.length = 1 := by
  refine ⟨by decide, ?_⟩
  have h := (preload_progress_per_asset [false] 1
    [PEvent.assetLoad 0, PEvent.scriptDone 0 true] (by decide)).2.2.1
  simpa using h

/-- C3 counterexample: a batch of one pending asset and one script where
the script settles last: both items settle and the batch completes
(callback fired), but only one progress notification was fired — the
script settlement fired none — and no notification ever reported the
fraction 1.0 (the only reported fraction is 1/2). -/
theorem preload_script_no_progress_counterexample :
    (preloadRun [false] 1 [PEvent.assetLoad 0, PEvent.scriptDone 0 true]).progressLog
      = [(1, 2)] ∧
    (preloadRun [false] 1 [PEvent.assetLoad 0, PEvent.scriptDone 0 true]).callbackLog
      = [false] :=
  ⟨rfl, rfl⟩

lemma lastOk_cons_cons (o r : LibOutcome) (rs : List LibOutcome) :
    lastOk (o :: r :: rs) = lastOk (r :: rs) := by
  unfold lastOk
  rw [List.getLast?_cons_cons]

lemma libs_foldl (outcomes : List LibOutcome) :
    ∀ (acc : List (Option String)), outcomes ≠ [] →
    (outcomes.foldl libSettle ⟨(outcomes.length : Int), acc⟩).callbackLog =
      acc ++ (errList outcomes).map Option.some ++
        (if lastOk outcomes then [none] else []) := by
  induction outcomes with
  | nil =>
    intro acc h
    exact absurd rfl h
  | cons o rest ih =>
    intro acc _
    rw [List.foldl_cons]
    cases o with
    | fail e =>
      have hstep : libSettle ⟨((LibOutcome.fail e :: rest).length : Int), acc⟩
          (LibOutcome.fail e) = ⟨(rest.length : Int), acc ++ [some e]⟩ := by
        unfold libSettle
        dsimp only
        rw [LibState.mk.injEq]
        refine ⟨?_, rfl⟩
        rw [List.length_cons]
        push_cast
        ring
      rw [hstep]
      cases rest with
      | nil =>
        simp [errList, lastOk]
      | cons r rs =>
        rw [ih (acc ++ [some e]) (List.cons_ne_nil r rs)]
        rw [lastOk_cons_cons]
        have herr : errList (LibOutcome.fail e :: r :: rs) = e :: errList (r :: rs) := by
          simp [errList]
        rw [herr]
        simp
    | ok =>
      cases rest with
      | nil =>
        have hstep : libSettle ⟨(([LibOutcome.ok] : List LibOutcome).length : Int), acc⟩
            LibOutcome.ok = ⟨0, acc ++ [none]⟩ := by
          unfold libSettle
          dsimp only
          rw [if_pos]
          · rw [LibState.mk.injEq]
            refine ⟨?_, rfl⟩
            simp
          · simp
        rw [hstep]
        simp [errList, lastOk]
      | cons r rs =>
        have hstep : libSettle ⟨((LibOutcome.ok :: r :: rs).length : Int), acc⟩
            LibOutcome.ok = ⟨((r :: rs).length : Int), acc⟩ := by
          unfold libSettle
          dsimp only
          rw [if_neg]
          · rw [LibState.mk.injEq]
            refine ⟨?_, rfl⟩
            rw [List.length_cons]
            push_cast
            ring
          · intro hcontra
            have h2 := beq_iff_eq.1 hcontra
            simp only [List.length_cons] at h2
            omega
        rw [hstep]
        rw [ih acc (List.cons_ne_nil r rs)]
        rw [lastOk_cons_cons]
        have herr : errList (LibOutcome.ok :: r :: rs) = errList (r :: rs) := by
          simp [errList]
        rw [herr]

/-- C2 (corrected): full characterisation of the `configure` /
`_parseApplicationProperties` callback invocations for libraries settling
in an arbitrary order, each exactly once.  If every library loads
successfully (or the list is empty, settled immediately with no wait),
the callback runs exactly once with `null`.  But the callback runs once
per failing library with that error, and — because the shared `count`
still reaches 0 — once more with `null` whenever the last library to
settle loads successfully, so with failures it can run several times. -/
theorem configure_library_callback (outcomes : List LibOutcome) :
    (parseAppPropsLibs outcomes).callbackLog =
      (errList outcomes).map Option.some ++
        (if outcomes.isEmpty || lastOk outcomes then [none] else []) := by
  cases outcomes with
  | nil => rfl
  | cons o rest =>
    have hred : parseAppPropsLibs (o :: rest) =
        (o :: rest).foldl libSettle ⟨((o :: rest).length : Int), []⟩ := rfl
    rw [hred, libs_foldl (o :: rest) [] (List.cons_ne_nil o rest)]
    simp [List.isEmpty]

/-- C2 counterexample: two libraries where the first settles with a
transport error and the second then settles successfully: the callback is
invoked twice — first with the error, then with `null` — refuting
"invoked exactly once". -/
theorem configure_callback_twice_counterexample :
    (parseAppPropsLibs [LibOutcome.fail "err", LibOutcome.ok]).callbackLog
      = [some "err", none] := rfl

/-- C4 (corrected): whenever the stored clock is nonzero, the delta passed
to `update` is exactly `clamp(now - lastTimestamp, 0, 0.1s) * timeScale`
with the clamp applied before the scale, the clock is updated to `now`,
and the very first tick after construction passes a zero raw delta.  (A
tick stamped exactly 0 leaves the clock indistinguishable from unseeded —
see the counterexample.) -/
theorem tick_delta_clamped_scaled (s : TickClock) (now : ℚ) (h : s.time ≠ 0) :
    (tickStep s now).2 = specDelta (s.time / 1000) (now / 1000) s.timeScale ∧
    (tickStep s now).1.time = now ∧
    (∀ ts now2 : ℚ, (tickStep (initClock ts) now2).2 = 0) := by
  refine ⟨?_, rfl, ?_⟩
  · unfold tickStep specDelta
    dsimp only
    rw [beq_eq_false_iff_ne.2 h]
    rw [if_neg Bool.false_ne_true]
    rw [sub_div]
  · intro ts now2
    unfold tickStep initClock pcClamp
    norm_num

/-- C4 witness: a clock at 2000 ms ticking at 2500 ms with timeScale 3. -/
theorem tick_delta_clamped_scaled_witness :
    ((⟨2000, 3⟩ : TickClock).time ≠ 0) ∧
    (tickStep ⟨2000, 3⟩ 2500).2 = specDelta (2000 / 1000) (2500 / 1000) 3 :=
  ⟨by norm_num, (tick_delta_clamped_scaled ⟨2000, 3⟩ 2500 (by norm_num)).1⟩

/-- C4 counterexample: a tick at host time exactly 0 stores 0, which
`this._time || now` treats as "unseeded", so the next tick (at 50 ms)
passes delta 0 to `update` even though the claim's formula gives
`clamp(0.05, 0, 0.1) * 1 = 1/20`. -/
theorem tick_zero_timestamp_counterexample :
    (tickStep (tickStep (initClock 1) 0).1 50).2 = 0 ∧
    specDelta (0 / 1000) (50 / 1000) 1 = 1 / 20 ∧
    (0 : ℚ) ≠ 1 / 20 := by
  refine ⟨?_, ?_, by norm_num⟩
  · norm_num [tickStep, initClock, pcClamp]
  · norm_num [specDelta, pcClamp]

/-- C8 (corrected): for positive window and backing dimensions,
KEEP_ASPECT returns a size whose width/height ratio is exactly the
backing ratio `bw/bh`, and the limiting window dimension is taken
verbatim. -/
theorem resize_keep_aspect_ratio (winW winH bw bh w h : ℚ)
    (hww : 0 < winW) (hwh : 0 < winH) (hbw : 0 < bw) (hbh : 0 < bh) :
    (resizeCanvas .keepAspect winW winH bw bh w h).width /
      (resizeCanvas .keepAspect winW winH bw bh w h).height = bw / bh ∧
    ((resizeCanvas .keepAspect winW winH bw bh w h).width = winW ∨
     (resizeCanvas .keepAspect winW winH bw bh w h).height = winH) := by
  have hbw0 : bw ≠ 0 := ne_of_gt hbw
  have hbh0 : bh ≠ 0 := ne_of_gt hbh
  have hww0 : winW ≠ 0 := ne_of_gt hww
  have hwh0 : winH ≠ 0 := ne_of_gt hwh
  have hr0 : bw / bh ≠ 0 := div_ne_zero hbw0 hbh0
  unfold resizeCanvas
  dsimp only
  by_cases hcmp : bw / bh > winW / winH
  · rw [if_pos hcmp]
    dsimp only
    refine ⟨?_, Or.inl rfl⟩
    rw [div_div_eq_mul_div, mul_comm, mul_div_assoc, div_self hww0, mul_one]
  · rw [if_neg hcmp]
    dsimp only
    refine ⟨?_, Or.inr rfl⟩
    rw [mul_comm, mul_div_assoc, div_self hwh0, mul_one]

/-- C8 witness: a 200x100 window with a 100x50 backing buffer. -/
theorem resize_keep_aspect_ratio_witness :
    ((0 : ℚ) < 200 ∧ (0 : ℚ) < 100 ∧ (0 : ℚ) < 100 ∧ (0 : ℚ) < 50) ∧
    (resizeCanvas .keepAspect 200 100 100 50 1 1).width /
      (resizeCanvas .keepAspect 200 100 100 50 1 1).height = 100 / 50 :=
  ⟨by norm_num,
    (resize_keep_aspect_ratio 200 100 100 50 1 1
      (by norm_num) (by norm_num) (by norm_num) (by norm_num)).1⟩

/-- C8 counterexample: with window width 0 (and a 100x50 backing buffer,
ratio 2), the code takes the `r > winR` branch and returns width 0 and
height `0 / 2 = 0`; the returned size is 0x0 and its width/height ratio is
not the backing ratio (in JS, `0/0` is `NaN`), so the claim's "for any
window dimensions" fails. -/
theorem resize_zero_window_counterexample :
    resizeCanvas .keepAspect 0 100 100 50 1 1 = { width := 0, height := 0 } ∧
    ¬ ((resizeCanvas .keepAspect 0 100 100 50 1 1).width /
        (resizeCanvas .keepAspect 0 100 100 50 1 1).height = 100 / 50) := by
  have h1 : resizeCanvas FillMode.keepAspect 0 100 100 50 1 1
      = { width := 0, height := 0 } := by
    unfold resizeCanvas
    dsimp only
    rw [if_pos (by norm_num : (100 : ℚ) / 50 > 0 / 100)]
    rw [SizePair.mk.injEq]
    norm_num
  refine ⟨h1, ?_⟩
  rw [h1]
  norm_num

/-- C10: with no content set, `loadFromToc` with an error callback invokes
it with 'No content' and then still dereferences `this.content.toc`,
raising a TypeError after the callback has run; with no error callback the
call `error('No content')` itself raises immediately (the
missing-callback defaulting has not run yet), with no callback invoked. -/
theorem load_from_toc_no_content (name : String) :
    loadFromToc none true name
      = TocOutcome.threw ["No content"] JsErrKind.memberOfUndefined ∧
    loadFromToc none false name
      = TocOutcome.threw [] JsErrKind.calledUndefined :=
  ⟨rfl, rfl⟩

lemma allBefore_of_split {α : Type} (p q : α → Bool) (l1 l2 : List α)
    (h1 : ∀ e ∈ l2, p e = false) (h2 : ∀ e ∈ l1, q e = false) :
    allBefore p q (l1 ++ l2) := by
  intro i j hi hj hp hq
  have hiL : i < l1.length := by
    by_contra hc
    push_neg at hc
    have hget : (l1 ++ l2).get ⟨i, hi⟩ ∈ l2 := by
      rw [List.get_eq_getElem, List.getElem_append_right hc]
      exact List.getElem_mem _
    rw [h1 _ hget] at hp
    exact Bool.false_ne_true hp
  have hjR : l1.length ≤ j := by
    by_contra hc
    push_neg at hc
    have hget : (l1 ++ l2).get ⟨j, hj⟩ ∈ l1 := by
      rw [List.get_eq_getElem, List.getElem_append_left hc]
      exact List.getElem_mem _
    rw [h2 _ hget] at hq
    exact Bool.false_ne_true hq
  omega

lemma initializeEvents_shape {w : HierTree} {e : StartEv}
    (he : e ∈ initializeEvents w) :
    isInitEv e = true ∧ isPostInitEv e = false ∧ isTickEv e = false ∧
      isAttachEv e = false := by
  obtain ⟨x, _, rfl⟩ := List.mem_map.1 he
  exact ⟨rfl, rfl, rfl, rfl⟩

lemma postInitializeEvents_shape {w : HierTree} {e : StartEv}
    (he : e ∈ postInitializeEvents w) :
    isPostInitEv e = true ∧ isInitEv e = false ∧ isTickEv e = false ∧
      isAttachEv e = false := by
  obtain ⟨x, _, rfl⟩ := List.mem_map.1 he
  exact ⟨rfl, rfl, rfl, rfl⟩

/-- C5: `start` first attaches the scene root (when present) under the
world root, then runs `initialize` over every node of the whole resulting
hierarchy, then `postInitialize` over every node — every `initialize`
strictly precedes every `postInitialize` — and the first `tick` is the
final action, after both phases. -/
theorem start_two_phase_order (world : HierTree) (sceneRoot : Option HierTree) :
    allBefore isAttachEv isInitEv (startTrace world sceneRoot) ∧
    allBefore isAttachEv isPostInitEv (startTrace world sceneRoot) ∧
    allBefore isInitEv isPostInitEv (startTrace world sceneRoot) ∧
    allBefore isInitEv isTickEv (startTrace world sceneRoot) ∧
    allBefore isPostInitEv isTickEv (startTrace world sceneRoot) ∧
    (∀ m ∈ nodesOf (startWorld world sceneRoot),
      StartEv.initNode m ∈ startTrace world sceneRoot ∧
      StartEv.postInitNode m ∈ startTrace world sceneRoot) ∧
    (startTrace world sceneRoot).getLast? = some StartEv.tickStart := by
  unfold startTrace
  set A := (match sceneRoot with
    | some _ => [StartEv.attachRoot]
    | none => ([] : List StartEv)) with hAdef
  set I := initializeEvents (startWorld world sceneRoot) with hIdef
  set P := postInitializeEvents (startWorld world sceneRoot) with hPdef
  have hAfact : ∀ e ∈ A, isAttachEv e = true ∧ isInitEv e = false ∧
      isPostInitEv e = false ∧ isTickEv e = false := by
    rw [hAdef]
    cases sceneRoot with
    | none => intro e he; exact absurd he (List.not_mem_nil e)
    | some sr =>
      intro e he
      have he2 : e = StartEv.attachRoot := by simpa using he
      subst he2
      exact ⟨rfl, rfl, rfl, rfl⟩
  have hIfact : ∀ e ∈ I, isInitEv e = true ∧ isPostInitEv e = false ∧
      isTickEv e = false ∧ isAttachEv e = false := by
    rw [hIdef]
    intro e he
    exact initializeEvents_shape he
  have hPfact : ∀ e ∈ P, isPostInitEv e = true ∧ isInitEv e = false ∧
      isTickEv e = false ∧ isAttachEv e = false := by
    rw [hPdef]
    intro e he
    exact postInitializeEvents_shape he
  have hTail : ∀ e ∈ I ++ (P ++ [StartEv.tickStart]),
      isAttachEv e = false := by
    intro e he
    rcases List.mem_append.1 he with h | h
    · exact (hIfact e h).2.2.2
    · rcases List.mem_append.1 h with h | h
      · exact (hPfact e h).2.2.2
      · have he2 : e = StartEv.tickStart := by simpa using h
        subst he2
        rfl
  have hassoc0 : ((A ++ I) ++ P) ++ [StartEv.tickStart]
      = A ++ (I ++ (P ++ [StartEv.tickStart])) := by
    simp [List.append_assoc]
  have hassoc1 : ((A ++ I) ++ P) ++ [StartEv.tickStart]
      = (A ++ I) ++ (P ++ [StartEv.tickStart]) := by
    simp [List.append_assoc]
  refine ⟨?_, ?_, ?_, ?_, ?_, ?_, ?_⟩
  · rw [hassoc0]
    exact allBefore_of_split _ _ _ _ hTail (fun e he => (hAfact e he).2.1)
  · rw [hassoc0]
    exact allBefore_of_split _ _ _ _ hTail (fun e he => (hAfact e he).2.2.1)
  · rw [hassoc1]
    refine allBefore_of_split _ _ _ _ ?_ ?_
    · intro e he
      rcases List.mem_append.1 he with h | h
      · exact (hPfact e h).2.1
      · have he2 : e = StartEv.tickStart := by simpa using h
        subst he2
        rfl
    · intro e he
      rcases List.mem_append.1 he with h | h
      · exact (hAfact e h).2.2.1
      · exact (hIfact e h).2.1
  · rw [hassoc1]
    refine allBefore_of_split _ _ _ _ ?_ ?_
    · intro e he
      rcases List.mem_append.1 he with h | h
      · exact (hPfact e h).2.1
      · have he2 : e = StartEv.tickStart := by simpa using h
        subst he2
        rfl
    · intro e he
      rcases List.mem_append.1 he with h | h
      · exact (hAfact e h).2.2.2
      · exact (hIfact e h).2.2.1
  · refine allBefore_of_split _ _ _ _ ?_ ?_
    · intro e he
      have he2 : e = StartEv.tickStart := by simpa using he
      subst he2
      rfl
    · intro e he
      rcases List.mem_append.1 he with h | h
      · rcases List.mem_append.1 h with h2 | h2
        · exact (hAfact e h2).2.2.2
        · exact (hIfact e h2).2.2.1
      · exact (hPfact e h).2.2.1
  · intro m hm
    constructor
    · refine List.mem_append.2 (Or.inl (List.mem_append.2 (Or.inl
        (List.mem_append.2 (Or.inr ?_)))))
      rw [hIdef]
      exact List.mem_map.2 ⟨m, hm, rfl⟩
    · refine List.mem_append.2 (Or.inl (List.mem_append.2 (Or.inr ?_)))
      rw [hPdef]
      exact List.mem_map.2 ⟨m, hm, rfl⟩
  · exact List.mem_getLast?_append_of_mem_getLast? rfl

/-- C5 witness: a world of three nodes plus an attached scene root. -/
theorem start_two_phase_order_witness :
    allBefore isInitEv isPostInitEv
      (startTrace (HierTree.node 0 [HierTree.node 1 [], HierTree.node 2 []])
        (some (HierTree.node 3 []))) :=
  (start_two_phase_order (HierTree.node 0 [HierTree.node 1 [], HierTree.node 2 []])
    (some (HierTree.node 3 []))).2.2.1

lemma fsinv_mono_nextId {L : List FsListener} {m m' : Nat} {F : List Nat}
    (h : FsInv ⟨L, m, F⟩) (hm : m ≤ m') : FsInv ⟨L, m', F⟩ := by
  obtain ⟨h1, h2, h3, h4⟩ := h
  refine ⟨h1, h2, ?_, ?_⟩
  · intro l hl
    obtain ⟨ha, hb⟩ := h3 l hl
    exact ⟨by dsimp only at ha ⊢; omega, hb⟩
  · intro i hi
    have := h4 i hi
    dsimp only at this ⊢
    omega

lemma snoc_fresh_fsinv {st : FsState} (h : FsInv st) (ev : FsEvent) (k : Nat)
    (hk : st.nextId ≤ k) :
    FsInv ⟨st.listeners ++ [⟨k, ev⟩], k + 1, st.firedLog⟩ := by
  obtain ⟨h1, h2, h3, h4⟩ := h
  refine ⟨?_, h2, ?_, ?_⟩
  · rw [List.map_append, List.nodup_append]
    refine ⟨h1, List.nodup_singleton k, ?_⟩
    intro x hx hx2
    have hx3 : x = k := by simpa using hx2
    subst hx3
    obtain ⟨l, hl, hl2⟩ := List.mem_map.1 hx
    have := (h3 l hl).1
    omega
  · intro l hl
    rcases List.mem_append.1 hl with hm | hm
    · obtain ⟨ha, hb⟩ := h3 l hm
      exact ⟨by dsimp only; omega, hb⟩
    · have hx3 : l = ⟨k, ev⟩ := by simpa using hm
      subst hx3
      dsimp only
      refine ⟨by omega, ?_⟩
      intro hc
      have := h4 k hc
      omega
  · intro i hi
    have := h4 i hi
    dsimp only
    omega

lemma enableFullscreen_fsinv {st : FsState} (h : FsInv st) (hs he : Bool) :
    FsInv (enableFullscreen hs he st) := by
  obtain ⟨L, n, F⟩ := st
  unfold enableFullscreen
  dsimp only
  cases hs with
  | true =>
    rw [if_pos rfl]
    cases he with
    | true =>
      rw [if_pos rfl]
      dsimp only
      exact snoc_fresh_fsinv (snoc_fresh_fsinv h FsEvent.change n (le_refl n))
        FsEvent.error (n + 1) (le_refl (n + 1))
    | false =>
      rw [if_neg Bool.false_ne_true]
      dsimp only
      exact fsinv_mono_nextId
        (snoc_fresh_fsinv h FsEvent.change n (le_refl n)) (Nat.le_succ (n + 1))
  | false =>
    rw [if_neg Bool.false_ne_true]
    cases he with
    | true =>
      rw [if_pos rfl]
      dsimp only
      exact snoc_fresh_fsinv h FsEvent.error (n + 1) (Nat.le_succ n)
    | false =>
      rw [if_neg Bool.false_ne_true]
      dsimp only
      exact fsinv_mono_nextId h (Nat.le_add_right n 2)

lemma disableFullscreen_fsinv {st : FsState} (h : FsInv st) (hs : Bool) :
    FsInv (disableFullscreen hs st) := by
  obtain ⟨L, n, F⟩ := st
  unfold disableFullscreen
  dsimp only
  cases hs with
  | true =>
    rw [if_pos rfl]
    dsimp only
    exact snoc_fresh_fsinv h FsEvent.change n (le_refl n)
  | false =>
    rw [if_neg Bool.false_ne_true]
    dsimp only
    exact fsinv_mono_nextId h (Nat.le_succ n)

lemma dispatchEvent_fsinv {st : FsState} (h : FsInv st) (ev : FsEvent) :
    FsInv (dispatchEvent ev st) := by
  obtain ⟨h1, h2, h3, h4⟩ := h
  have hsub1 : (st.listeners.filter (fun l => l.evt != ev)).Sublist st.listeners :=
    List.filter_sublist _
  have hsub2 : (st.listeners.filter (fun l => l.evt == ev)).Sublist st.listeners :=
    List.filter_sublist _
  have hmap2 : ((st.listeners.filter (fun l => l.evt == ev)).map
      (fun l => l.id)).Sublist (st.listeners.map (fun l => l.id)) :=
    hsub2.map _
  unfold dispatchEvent
  refine ⟨?_, ?_, ?_, ?_⟩
  · exact List.Nodup.sublist (hsub1.map _) h1
  · show (st.firedLog ++ _).Nodup
    rw [List.nodup_append]
    refine ⟨h2, List.Nodup.sublist hmap2 h1, ?_⟩
    intro x hx hx2
    obtain ⟨l, hl, hl2⟩ := List.mem_map.1 hx2
    have hmem := hsub2.subset hl
    rw [← hl2] at hx
    exact (h3 l hmem).2 hx
  · intro l hl
    have hlf := List.mem_filter.1 hl
    obtain ⟨ha, hb⟩ := h3 l hlf.1
    refine ⟨ha, ?_⟩
    intro hc
    rcases List.mem_append.1 hc with hcc | hcc
    · exact hb hcc
    · obtain ⟨m, hm, hm2⟩ := List.mem_map.1 hcc
      have hmmem := List.mem_filter.1 hm
      have hne : l ≠ m := by
        intro heq
        subst heq
        have hev1 := hlf.2
        have hev2 := hmmem.2
        simp only [bne_iff_ne, ne_eq, beq_iff_eq] at hev1 hev2
        exact hev1 hev2
      exact hne (List.inj_on_of_nodup_map h1 hlf.1 hmmem.1 hm2.symm)
  · intro i hi
    rcases List.mem_append.1 hi with hcc | hcc
    · exact h4 i hcc
    · obtain ⟨m, hm, hm2⟩ := List.mem_map.1 hcc
      have hmmem := List.mem_filter.1 hm
      rw [← hm2]
      exact (h3 m hmmem.1).1

lemma fsRun_fsinv (ops : List FsOp) : FsInv (fsRun ops) := by
  have hstep : ∀ (l : List FsOp) (st : FsState), FsInv st →
      FsInv (l.foldl fsStep st) := by
    intro l
    induction l with
    | nil => intro st h; exact h
    | cons op rest ih =>
      intro st h
      refine ih (fsStep st op) ?_
      cases op with
      | enable hs he => exact enableFullscreen_fsinv h hs he
      | disable hs => exact disableFullscreen_fsinv h hs
      | dispatch ev => exact dispatchEvent_fsinv h ev
  exact hstep ops ⟨[], 0, []⟩ ⟨List.nodup_nil, List.nodup_nil,
    (fun l hl => absurd hl (List.not_mem_nil l)), (fun i hi => absurd hi (List.not_mem_nil i))⟩

/-- C9 (corrected): each success/error observer fires at most once (no
listener id ever repeats in the fired log, over any operation sequence)
and removes itself when it fires (no listener for a dispatched event
survives the dispatch); but the complementary observer of the outcome
that did not occur stays registered: one settled `enableFullscreen`
transition with both callbacks leaves its other listener behind, and a
second settled call accumulates a second one. -/
theorem fullscreen_one_shot_listeners :
    (∀ ops : List FsOp, (fsRun ops).firedLog.Nodup) ∧
    (∀ (st : FsState) (ev : FsEvent) (l : FsListener),
      l ∈ (dispatchEvent ev st).listeners → l.evt ≠ ev) ∧
    (fsRun [FsOp.enable true true, FsOp.dispatch FsEvent.change]).listeners
      = [⟨1, FsEvent.error⟩] ∧
    (fsRun [FsOp.enable true true, FsOp.dispatch FsEvent.change,
      FsOp.enable true true, FsOp.dispatch FsEvent.change]).listeners
      = [⟨1, FsEvent.error⟩, ⟨3, FsEvent.error⟩] := by
  refine ⟨?_, ?_, rfl, rfl⟩
  · intro ops
    exact (fsRun_fsinv ops).2.1
  · intro st ev l hl
    have hf := (List.mem_filter.1 hl).2
    simpa [bne_iff_ne] using hf

/-- C9 witness: a dispatched `fullscreenchange` leaves a registered error
listener untouched while no change listener survives. -/
theorem fullscreen_one_shot_listeners_witness :
    ((⟨7, FsEvent.error⟩ : FsListener)
        ∈ (dispatchEvent FsEvent.change ⟨[⟨7, FsEvent.error⟩], 8, []⟩).listeners) ∧
    (⟨7, FsEvent.error⟩ : FsListener).evt ≠ FsEvent.change :=
  ⟨by decide, fullscreen_one_shot_listeners.2.1 ⟨[⟨7, FsEvent.error⟩], 8, []⟩
    FsEvent.change ⟨7, FsEvent.error⟩ (by decide)⟩

/-- C9 counterexample: two `enableFullscreen(el, success, error)` calls,
each followed by a successful transition (`fullscreenchange` dispatch):
every transition has settled, each success closure fired exactly once
(ids 0 and 2), yet two error listeners remain registered — repeated calls
do accumulate leaked listeners. -/
theorem fullscreen_listener_leak_counterexample :
    (fsRun [FsOp.enable true true, FsOp.dispatch FsEvent.change,
      FsOp.enable true true, FsOp.dispatch FsEvent.change]).listeners.length = 2 ∧
    (fsRun [FsOp.enable true true, FsOp.dispatch FsEvent.change,
      FsOp.enable true true, FsOp.dispatch FsEvent.change]).firedLog = [0, 2] :=
  ⟨rfl, rfl⟩

lemma RankedSeg.append {l1 l2 : List FrameEv} {lo1 hi1 lo2 hi2 : Nat}
    (h1 : RankedSeg l1 lo1 hi1) (h2 : RankedSeg l2 lo2 hi2)
    (hmid : hi1 < lo2) (hlo : lo1 ≤ lo2) (hhi : hi1 ≤ hi2) :
    RankedSeg (l1 ++ l2) lo1 hi2 := by
  obtain ⟨c1, b1⟩ := h1
  obtain ⟨c2, b2⟩ := h2
  constructor
  · rw [List.chain'_append]
    refine ⟨c1, c2, ?_⟩
    intro x hx y hy
    have hx2 := b1 x (List.mem_of_mem_getLast? hx)
    have hy2 := b2 y (List.mem_of_mem_head? hy)
    omega
  · intro e he
    rcases List.mem_append.1 he with h | h
    · have := b1 e h
      omega
    · have := b2 e h
      omega

lemma RankedSeg.weaken {l : List FrameEv} {lo hi lo' hi' : Nat}
    (h : RankedSeg l lo hi) (h1 : lo' ≤ lo) (h2 : hi ≤ hi') :
    RankedSeg l lo' hi' := by
  obtain ⟨c, b⟩ := h
  refine ⟨c, ?_⟩
  intro e he
  have := b e he
  omega

lemma rankedSeg_nil (lo hi : Nat) : RankedSeg [] lo hi :=
  ⟨List.chain'_nil, fun e he => absurd he (List.not_mem_nil e)⟩

lemma rankedSeg_singleton (e : FrameEv) : RankedSeg [e] (rank e) (rank e) := by
  refine ⟨List.chain'_singleton e, ?_⟩
  intro x hx
  have hx2 : x = e := by simpa using hx
  subst hx2
  exact ⟨le_refl _, le_refl _⟩

lemma rankedSeg_opt (c : Bool) (e : FrameEv) :
    RankedSeg (if c then [e] else []) (rank e) (rank e) := by
  cases c with
  | true => exact rankedSeg_singleton e
  | false => exact rankedSeg_nil _ _

lemma updateTrace_ranked (dt : ℚ) (inp : InputDevices) :
    RankedSeg (updateTrace dt inp) 0 7 := by
  have h0 : RankedSeg [FrameEv.fixedUpdate (1 / 60), FrameEv.varUpdate dt,
      FrameEv.postUpdate dt, FrameEv.fireUpdate dt] 0 3 := by
    constructor
    · simp [List.chain'_cons, rank]
    · intro e he
      simp only [List.mem_cons, List.not_mem_nil, or_false] at he
      rcases he with rfl | rfl | rfl | rfl <;> simp [rank]
  have h1 := rankedSeg_opt inp.controller FrameEv.controllerUpdate
  have h2 := rankedSeg_opt inp.mouse FrameEv.mouseUpdate
  have h3 := rankedSeg_opt inp.keyboard FrameEv.keyboardUpdate
  have h4 := rankedSeg_opt inp.gamepads FrameEv.gamepadsUpdate
  have a1 := h0.append h1 (by norm_num [rank]) (by norm_num [rank]) (by norm_num [rank])
  have a2 := a1.append h2 (by norm_num [rank]) (by norm_num [rank]) (by norm_num [rank])
  have a3 := a2.append h3 (by norm_num [rank]) (by norm_num [rank]) (by norm_num [rank])
  exact a3.append h4 (by norm_num [rank]) (by norm_num [rank]) (by norm_num [rank])

lemma camTriple_ranked (c : Nat) : RankedSeg (camTriple c) (9 + 3 * c) (11 + 3 * c) := by
  constructor
  · simp only [camTriple, List.chain'_cons, List.chain'_singleton, rank, and_true]
    omega
  · intro e he
    simp only [camTriple, List.mem_cons, List.not_mem_nil, or_false] at he
    rcases he with rfl | rfl | rfl <;> simp [rank]

lemma camsPart_ranked (n : Nat) :
    RankedSeg ((List.range n).flatMap camTriple) 9 (8 + 3 * n) := by
  induction n with
  | zero => exact rankedSeg_nil _ _
  | succ m ih =>
    rw [List.range_succ, List.flatMap_append]
    have htr : ([m] : List Nat).flatMap camTriple = camTriple m := by
      simp [List.flatMap]
    rw [htr]
    have := ih.append (camTriple_ranked m) (by omega) (by omega) (by omega)
    exact this.weaken (le_refl 9) (by omega)

lemma tickTrace_ranked (dt : ℚ) (inp : InputDevices) (nCams : Nat) :
    RankedSeg (tickTrace dt inp nCams) 0 (8 + 3 * nCams) := by
  have hsync : RankedSeg [FrameEv.syncHierarchy] 8 8 := rankedSeg_singleton _
  have hrender : RankedSeg (renderTrace nCams) 8 (8 + 3 * nCams) := by
    have := hsync.append (camsPart_ranked nCams) (by omega) (by omega) (by omega)
    exact this
  exact (updateTrace_ranked dt inp).append hrender (by omega) (by omega) (by omega)

lemma mem_if_singleton {α : Type} (e x : α) (c : Bool) :
    e ∈ (if c then [x] else []) ↔ c = true ∧ e = x := by
  cases c <;> simp

/-- C6: within one tick the phases run in the spec's fixed order, never
interleaved: the rank of every action is strictly below the rank of every
later action (`List.Pairwise`), with ranks assigning fixed-step update
first, then variable-step, post-update, the "update" notification, input
polls, one hierarchy sync, and then for each camera, in array index
order, begin/render/end.  The fixed-step update runs with the constant
step 1/60 regardless of dt, the variable phases receive the scaled dt,
and exactly the registered cameras are rendered. -/
theorem tick_phase_order (dt : ℚ) (inp : InputDevices) (nCams : Nat) :
    List.Pairwise (fun a b => rank a < rank b) (tickTrace dt inp nCams) ∧
    (FrameEv.fixedUpdate (1 / 60) ∈ tickTrace dt inp nCams ∧
      ∀ d, FrameEv.fixedUpdate d ∈ tickTrace dt inp nCams → d = 1 / 60) ∧
    (FrameEv.varUpdate dt ∈ tickTrace dt inp nCams ∧
      ∀ d, FrameEv.varUpdate d ∈ tickTrace dt inp nCams → d = dt) ∧
    (FrameEv.postUpdate dt ∈ tickTrace dt inp nCams ∧
      ∀ d, FrameEv.postUpdate d ∈ tickTrace dt inp nCams → d = dt) ∧
    (FrameEv.fireUpdate dt ∈ tickTrace dt inp nCams ∧
      ∀ d, FrameEv.fireUpdate d ∈ tickTrace dt inp nCams → d = dt) ∧
    FrameEv.syncHierarchy ∈ tickTrace dt inp nCams ∧
    (∀ c, FrameEv.frameBegin c ∈ tickTrace dt inp nCams ↔ c < nCams) ∧
    (∀ c, FrameEv.renderScene c ∈ tickTrace dt inp nCams ↔ c < nCams) ∧
    (∀ c, FrameEv.frameEnd c ∈ tickTrace dt inp nCams ↔ c < nCams) := by
  haveI : IsTrans FrameEv (fun a b => rank a < rank b) :=
    ⟨fun _ _ _ h1 h2 => Nat.lt_trans h1 h2⟩
  refine ⟨List.chain'_iff_pairwise.1 (tickTrace_ranked dt inp nCams).1,
    ⟨?_, ?_⟩, ⟨?_, ?_⟩, ⟨?_, ?_⟩, ⟨?_, ?_⟩, ?_, ?_, ?_, ?_⟩
  · simp [tickTrace, updateTrace]
  · intro d hd
    simp [tickTrace, updateTrace, renderTrace, camTriple, mem_if_singleton,
      List.mem_flatMap] at hd
    rw [hd]
    norm_num
  · simp [tickTrace, updateTrace]
  · intro d hd
    simp [tickTrace, updateTrace, renderTrace, camTriple, mem_if_singleton,
      List.mem_flatMap] at hd
    exact hd
  · simp [tickTrace, updateTrace]
  · intro d hd
    simp [tickTrace, updateTrace, renderTrace, camTriple, mem_if_singleton,
      List.mem_flatMap] at hd
    exact hd
  · simp [tickTrace, updateTrace]
  · intro d hd
    simp [tickTrace, updateTrace, renderTrace, camTriple, mem_if_singleton,
      List.mem_flatMap] at hd
    exact hd
  · simp [tickTrace, renderTrace]
  · intro c
    simp [tickTrace, updateTrace, renderTrace, camTriple, mem_if_singleton,
      List.mem_flatMap]
  · intro c
    simp [tickTrace, updateTrace, renderTrace, camTriple, mem_if_singleton,
      List.mem_flatMap]
  · intro c
    simp [tickTrace, updateTrace, renderTrace, camTriple, mem_if_singleton,
      List.mem_flatMap]

/-- C6 witness: a tick with dt = 1/7, all input devices present and two
cameras. -/
theorem tick_phase_order_witness :
    List.Pairwise (fun a b => rank a < rank b)
      (tickTrace (1 / 7) ⟨true, true, true, true⟩ 2) ∧
    (∀ c, FrameEv.frameBegin c ∈ tickTrace (1 / 7) ⟨true, true, true, true⟩ 2 ↔ c < 2) :=
  ⟨(tick_phase_order (1 / 7) ⟨true, true, true, true⟩ 2).1,
    (tick_phase_order (1 / 7) ⟨true, true, true, true⟩ 2).2.2.2.2.2.2.1⟩

end EngineSpec
